import Mathlib

/-!
Verification of the OCR-text normalization and aggregation/export core of the
rfi-text-extractor repository.

The Python sources embedded here are
`src/ocr_process/text_cleaner.py` (function `clean_text`) and
`src/ocr_process/save_to_csv.py` (functions `ensure_list` and
`save_side_by_side_csv`).  Text is modelled as `List Char`; the regular
expressions used by the code (`re.sub(r'^\s*=\s*', '-', …, re.MULTILINE)`,
`re.findall(r'-?\d+\.\d+', …)` and
`re.findall(r'^(\d+(?:\.\d+)?)', …, re.MULTILINE)`) are embedded as
left-to-right scanners with the same anchoring, greediness and
non-overlap semantics.  The scanners take a fuel argument (any bound on the
input length) so that they are structurally recursive and computable by the
kernel; fuel-irrelevance lemmas recover the natural unfolding equations.
Python `float` arithmetic on the short decimal tokens produced by the
X regex is modelled exactly on decimals (`float(t) * 1000` followed by
`"%.3f"` formatting with round-half-to-even), which agrees with IEEE double
behaviour for the token magnitudes the regex can produce here.
-/

/-- The whitespace set of Python's `str.strip()` (no argument) and of `\s`
in the `re` module on `str` patterns: exactly the characters for which
CPython's `str.isspace()` holds — the controls `\t`, `\n`, `\v`, `\f`,
`\r` (U+0009-U+000D), the file/group/record/unit separators U+001C-U+001F,
the space U+0020, next line U+0085, no-break space U+00A0, Ogham space mark
U+1680, the typographic spaces U+2000-U+200A, the line and paragraph
separators U+2028 and U+2029, narrow no-break space U+202F, medium
mathematical space U+205F, and the ideographic space U+3000. -/
def pyWs (c : Char) : Bool :=
  match c.toNat with
  | 0x20 | 0x09 | 0x0a | 0x0b | 0x0c | 0x0d
  | 0x1c | 0x1d | 0x1e | 0x1f
  | 0x85 | 0xa0 | 0x1680
  | 0x2000 | 0x2001 | 0x2002 | 0x2003 | 0x2004 | 0x2005 | 0x2006
  | 0x2007 | 0x2008 | 0x2009 | 0x200a | 0x2028 | 0x2029
  | 0x202f | 0x205f | 0x3000 => true
  | _ => false

/-- The line-boundary characters of Python's `str.splitlines()`:
`\n` (U+000A), `\r` (U+000D), `\v` (U+000B), `\f` (U+000C),
U+001C, U+001D, U+001E, U+0085, U+2028, U+2029 (`\r\n` is treated as a
single boundary by `splitlines`, handled separately below).  Note U+001F is
Python whitespace but not a line boundary. -/
def isLb (c : Char) : Bool :=
  match c.toNat with
  | 0x0a | 0x0d | 0x0b | 0x0c
  | 0x1c | 0x1d | 0x1e
  | 0x85 | 0x2028 | 0x2029 => true
  | _ => false

/-- Python `str.strip()`: remove leading and trailing whitespace. -/
def pyStrip (cs : List Char) : List Char :=
  ((cs.dropWhile pyWs).reverse.dropWhile pyWs).reverse

/-- Worker for `splitlines`: `acc` is the current (reversed) line. -/
def splitlinesAux : List Char → List Char → List (List Char)
  | [], acc => [acc.reverse]
  | '\r' :: '\n' :: cs, acc =>
      acc.reverse :: (if cs.isEmpty then [] else splitlinesAux cs [])
  | c :: cs, acc =>
      if isLb c then
        acc.reverse :: (if cs.isEmpty then [] else splitlinesAux cs [])
      else
        splitlinesAux cs (c :: acc)

/-- Python `str.splitlines()` (no trailing empty line after a final
terminator; the empty string yields no lines). -/
def splitlines (cs : List Char) : List (List Char) :=
  if cs.isEmpty then [] else splitlinesAux cs []

/-- Attempt to match the pattern `\s*=\s*` at the head of `cs`
(the body of `re.sub(r'^\s*=\s*', '-', …)` once the `^` anchor holds).
Returns the remainder after the greedy match together with a flag telling
whether the last consumed character was `'\n'` (which makes the position
after the match a `re.MULTILINE` line start again). -/
def matchEqHead (cs : List Char) : Option (List Char × Bool) :=
  match cs.dropWhile pyWs with
  | [] => none
  | c :: cs2 =>
      if c = '=' then
        some (cs2.dropWhile pyWs, (cs2.takeWhile pyWs).getLast? == some '\n')
      else none

theorem matchEqHead_lt {cs rest : List Char} {nl : Bool}
    (h : matchEqHead cs = some (rest, nl)) : rest.length < cs.length := by
  have hs := (List.dropWhile_suffix (l := cs) pyWs).length_le
  simp only [matchEqHead] at h
  split at h
  · exact absurd h (by simp)
  · rename_i c cs2 h2
    split at h
    · simp only [Option.some.injEq, Prod.mk.injEq] at h
      have h5 : rest.length ≤ cs2.length :=
        h.1 ▸ (List.dropWhile_suffix (l := cs2) pyWs).length_le
      rw [h2] at hs
      simp only [List.length_cons] at hs
      omega
    · exact absurd h (by simp)

/-- Fueled worker for `subEq`; the fuel is any bound on the input length. -/
def subEqF : Nat → List Char → Bool → List Char
  | 0, _, _ => []
  | _ + 1, [], _ => []
  | fuel + 1, c :: cs, false => c :: subEqF fuel cs (c == '\n')
  | fuel + 1, c :: cs, true =>
    match matchEqHead (c :: cs) with
    | some (rest, nl) => '-' :: subEqF fuel rest nl
    | none => c :: subEqF fuel cs (c == '\n')

/-- Embedding of `re.sub(r'^\s*=\s*', '-', cleaned_text_y, flags=re.MULTILINE)`
(text_cleaner.py line 25): scan left to right; at every line-start position
(`atStart`), a greedy `\s*=\s*` match is replaced by a single `'-'` and the
scan resumes after the consumed characters. -/
def subEq (cs : List Char) (atStart : Bool) : List Char :=
  subEqF cs.length cs atStart

theorem subEqF_irrel : ∀ (f1 f2 : Nat) (cs : List Char) (b : Bool),
    cs.length ≤ f1 → cs.length ≤ f2 → subEqF f1 cs b = subEqF f2 cs b := by
  intro f1
  induction f1 using Nat.strong_induction_on with
  | _ f1 ih =>
    intro f2 cs b h1 h2
    match f1, f2, cs with
    | 0, 0, [] => rfl
    | 0, _ + 1, [] => rfl
    | _ + 1, 0, [] => rfl
    | _ + 1, _ + 1, [] => rfl
    | 0, _, c :: cs' => simp at h1
    | _ + 1, 0, c :: cs' => simp at h2
    | f1' + 1, f2' + 1, c :: cs' =>
      simp only [List.length_cons] at h1 h2
      cases b with
      | false =>
        simp only [subEqF]
        rw [ih f1' (by omega) f2' cs' _ (by omega) (by omega)]
      | true =>
        rcases hm : matchEqHead (c :: cs') with _ | ⟨rest, nl⟩
        · simp only [subEqF, hm]
          rw [ih f1' (by omega) f2' cs' _ (by omega) (by omega)]
        · have hl := matchEqHead_lt hm
          simp only [List.length_cons] at hl
          simp only [subEqF, hm]
          rw [ih f1' (by omega) f2' rest nl (by omega) (by omega)]

/-- Unfolding equation for `subEq` on a nonempty input at a line start. -/
theorem subEq_cons_true (c : Char) (cs : List Char) :
    subEq (c :: cs) true =
      match matchEqHead (c :: cs) with
      | some (rest, nl) => '-' :: subEq rest nl
      | none => c :: subEq cs (c == '\n') := by
  rcases hm : matchEqHead (c :: cs) with _ | ⟨rest, nl⟩
  · simp only [subEq, List.length_cons, subEqF, hm]
  · have hl := matchEqHead_lt hm
    simp only [List.length_cons] at hl
    simp only [subEq, List.length_cons, subEqF, hm]
    rw [subEqF_irrel cs.length rest.length rest nl (by omega) (by omega)]

/-- Unfolding equation for `subEq` on a nonempty input away from a line
start. -/
theorem subEq_cons_false (c : Char) (cs : List Char) :
    subEq (c :: cs) false = c :: subEq cs (c == '\n') := by
  simp only [subEq, List.length_cons, subEqF]

/-- Attempt to match `\d+\.\d+` at the head of `cs`; returns the matched
characters and the remainder.  Greedy digit runs; the `.` must separate two
nonempty digit runs. -/
def matchNumCore (cs : List Char) : Option (List Char × List Char) :=
  let d1 := cs.takeWhile Char.isDigit
  if d1.isEmpty then none
  else
    match cs.dropWhile Char.isDigit with
    | [] => none
    | c :: cs1 =>
      if c = '.' then
        let d2 := cs1.takeWhile Char.isDigit
        if d2.isEmpty then none
        else some (d1 ++ '.' :: d2, cs1.dropWhile Char.isDigit)
      else none

/-- Attempt to match `-?\d+\.\d+` at the head of `cs`
(the pattern of text_cleaner.py line 28). -/
def matchFloatAt (cs : List Char) : Option (List Char × List Char) :=
  match cs with
  | [] => none
  | c :: cs0 =>
    if c = '-' then
      match matchNumCore cs0 with
      | some (m, rest) => some ('-' :: m, rest)
      | none => none
    else matchNumCore (c :: cs0)

theorem matchNumCore_lt {cs m rest : List Char}
    (h : matchNumCore cs = some (m, rest)) : rest.length < cs.length := by
  have hs := (List.dropWhile_suffix (l := cs) Char.isDigit).length_le
  simp only [matchNumCore] at h
  split at h
  · exact absurd h (by simp)
  · split at h
    · exact absurd h (by simp)
    · rename_i c cs1 h2
      split at h
      · split at h
        · exact absurd h (by simp)
        · simp only [Option.some.injEq, Prod.mk.injEq] at h
          have h4 : rest.length ≤ cs1.length :=
            h.2 ▸ (List.dropWhile_suffix (l := cs1) Char.isDigit).length_le
          rw [h2] at hs
          simp only [List.length_cons] at hs
          omega
      · exact absurd h (by simp)

theorem matchFloatAt_lt {cs m rest : List Char}
    (h : matchFloatAt cs = some (m, rest)) : rest.length < cs.length := by
  simp only [matchFloatAt] at h
  split at h
  · exact absurd h (by simp)
  · rename_i c cs0
    split at h
    · split at h
      · rename_i m0 rest0 h2
        simp only [Option.some.injEq, Prod.mk.injEq] at h
        have h3 := matchNumCore_lt h2
        have h4 : rest.length = rest0.length := by rw [← h.2]
        simp only [List.length_cons]
        omega
      · exact absurd h (by simp)
    · exact matchNumCore_lt h

/-- Fueled worker for `findAllFloat`. -/
def findAllFloatF : Nat → List Char → List (List Char)
  | 0, _ => []
  | _ + 1, [] => []
  | fuel + 1, c :: cs =>
    match matchFloatAt (c :: cs) with
    | some (m, rest) => m :: findAllFloatF fuel rest
    | none => findAllFloatF fuel cs

/-- Embedding of `re.findall(r'-?\d+\.\d+', cleaned_text_y)`
(text_cleaner.py line 28): left-to-right non-overlapping scan, advancing one
character past a position where no match starts. -/
def findAllFloat (cs : List Char) : List (List Char) :=
  findAllFloatF cs.length cs

theorem findAllFloatF_irrel : ∀ (f1 f2 : Nat) (cs : List Char),
    cs.length ≤ f1 → cs.length ≤ f2 → findAllFloatF f1 cs = findAllFloatF f2 cs := by
  intro f1
  induction f1 using Nat.strong_induction_on with
  | _ f1 ih =>
    intro f2 cs h1 h2
    match f1, f2, cs with
    | 0, 0, [] => rfl
    | 0, _ + 1, [] => rfl
    | _ + 1, 0, [] => rfl
    | _ + 1, _ + 1, [] => rfl
    | 0, _, c :: cs' => simp at h1
    | _ + 1, 0, c :: cs' => simp at h2
    | f1' + 1, f2' + 1, c :: cs' =>
      simp only [List.length_cons] at h1 h2
      rcases hm : matchFloatAt (c :: cs') with _ | ⟨m, rest⟩
      · simp only [findAllFloatF, hm]
        rw [ih f1' (by omega) f2' cs' (by omega) (by omega)]
      · have hl := matchFloatAt_lt hm
        simp only [List.length_cons] at hl
        simp only [findAllFloatF, hm]
        rw [ih f1' (by omega) f2' rest (by omega) (by omega)]

/-- Unfolding equation for `findAllFloat` on a nonempty input. -/
theorem findAllFloat_cons (c : Char) (cs : List Char) :
    findAllFloat (c :: cs) =
      match matchFloatAt (c :: cs) with
      | some (m, rest) => m :: findAllFloat rest
      | none => findAllFloat cs := by
  rcases hm : matchFloatAt (c :: cs) with _ | ⟨m, rest⟩
  · simp only [findAllFloat, List.length_cons, findAllFloatF, hm]
  · have hl := matchFloatAt_lt hm
    simp only [List.length_cons] at hl
    simp only [findAllFloat, List.length_cons, findAllFloatF, hm]
    rw [findAllFloatF_irrel cs.length rest.length rest (by omega) (by omega)]

/-- Attempt to match `\d+(?:\.\d+)?` at the head of `cs` (body of the X-field
pattern `^(\d+(?:\.\d+)?)` of text_cleaner.py line 35 once the `^` anchor
holds): mandatory digit run, then optionally a dot followed by a digit run. -/
def matchXAt (cs : List Char) : Option (List Char × List Char) :=
  let d1 := cs.takeWhile Char.isDigit
  if d1.isEmpty then none
  else
    match cs.dropWhile Char.isDigit with
    | [] => some (d1, [])
    | c :: cs1 =>
      if c = '.' then
        let d2 := cs1.takeWhile Char.isDigit
        if d2.isEmpty then some (d1, c :: cs1)
        else some (d1 ++ '.' :: d2, cs1.dropWhile Char.isDigit)
      else some (d1, c :: cs1)

theorem matchXAt_lt {cs m rest : List Char}
    (h : matchXAt cs = some (m, rest)) : rest.length < cs.length := by
  have h7 : (cs.takeWhile Char.isDigit).length
      + (cs.dropWhile Char.isDigit).length = cs.length := by
    rw [← List.length_append, cs.takeWhile_append_dropWhile]
  simp only [matchXAt] at h
  split at h
  · exact absurd h (by simp)
  · rename_i h1
    have h5 : 0 < (cs.takeWhile Char.isDigit).length := by
      simp only [List.isEmpty_iff] at h1
      exact List.length_pos.mpr h1
    split at h
    · rename_i h2
      rw [h2] at h7
      simp only [List.length_nil] at h7
      simp only [Option.some.injEq, Prod.mk.injEq] at h
      have h8 : rest.length = 0 := by rw [← h.2]; rfl
      omega
    · rename_i c cs1 h2
      rw [h2] at h7
      simp only [List.length_cons] at h7
      split at h
      · split at h
        · simp only [Option.some.injEq, Prod.mk.injEq] at h
          have h4 : rest.length = cs1.length + 1 := by rw [← h.2]; simp
          omega
        · simp only [Option.some.injEq, Prod.mk.injEq] at h
          have h4 : rest.length ≤ cs1.length :=
            h.2 ▸ (List.dropWhile_suffix (l := cs1) Char.isDigit).length_le
          omega
      · simp only [Option.some.injEq, Prod.mk.injEq] at h
        have h4 : rest.length = cs1.length + 1 := by rw [← h.2]; simp
        omega

/-- Fueled worker for `findAllX`. -/
def findAllXF : Nat → List Char → Bool → List (List Char)
  | 0, _, _ => []
  | _ + 1, [], _ => []
  | fuel + 1, c :: cs, false => findAllXF fuel cs (c == '\n')
  | fuel + 1, c :: cs, true =>
    match matchXAt (c :: cs) with
    | some (m, rest) => m :: findAllXF fuel rest false
    | none => findAllXF fuel cs (c == '\n')

/-- Embedding of `re.findall(r'^(\d+(?:\.\d+)?)', text_x, flags=re.MULTILINE)`
(text_cleaner.py line 35): a match may start only at a line-start position
(`atStart`); the scan advances one character at a time, updating the
line-start flag when the consumed character is a newline. -/
def findAllX (cs : List Char) (atStart : Bool) : List (List Char) :=
  findAllXF cs.length cs atStart

theorem findAllXF_irrel : ∀ (f1 f2 : Nat) (cs : List Char) (b : Bool),
    cs.length ≤ f1 → cs.length ≤ f2 → findAllXF f1 cs b = findAllXF f2 cs b := by
  intro f1
  induction f1 using Nat.strong_induction_on with
  | _ f1 ih =>
    intro f2 cs b h1 h2
    match f1, f2, cs with
    | 0, 0, [] => rfl
    | 0, _ + 1, [] => rfl
    | _ + 1, 0, [] => rfl
    | _ + 1, _ + 1, [] => rfl
    | 0, _, c :: cs' => simp at h1
    | _ + 1, 0, c :: cs' => simp at h2
    | f1' + 1, f2' + 1, c :: cs' =>
      simp only [List.length_cons] at h1 h2
      cases b with
      | false =>
        simp only [findAllXF]
        rw [ih f1' (by omega) f2' cs' _ (by omega) (by omega)]
      | true =>
        rcases hm : matchXAt (c :: cs') with _ | ⟨m, rest⟩
        · simp only [findAllXF, hm]
          rw [ih f1' (by omega) f2' cs' _ (by omega) (by omega)]
        · have hl := matchXAt_lt hm
          simp only [List.length_cons] at hl
          simp only [findAllXF, hm]
          rw [ih f1' (by omega) f2' rest false (by omega) (by omega)]

/-- Unfolding equation for `findAllX` on a nonempty input at a line start. -/
theorem findAllX_cons_true (c : Char) (cs : List Char) :
    findAllX (c :: cs) true =
      match matchXAt (c :: cs) with
      | some (m, rest) => m :: findAllX rest false
      | none => findAllX cs (c == '\n') := by
  rcases hm : matchXAt (c :: cs) with _ | ⟨m, rest⟩
  · simp only [findAllX, List.length_cons, findAllXF, hm]
  · have hl := matchXAt_lt hm
    simp only [List.length_cons] at hl
    simp only [findAllX, List.length_cons, findAllXF, hm]
    rw [findAllXF_irrel cs.length rest.length rest false (by omega) (by omega)]

/-- Unfolding equation for `findAllX` on a nonempty input away from a line
start. -/
theorem findAllX_cons_false (c : Char) (cs : List Char) :
    findAllX (c :: cs) false = findAllX cs (c == '\n') := by
  simp only [findAllX, List.length_cons, findAllXF]

/-- Fractional digits of a matched token as in `match.split('.')[1]`
(text_cleaner.py line 31): the characters between the first dot and the next
dot or the end. -/
def fracDigits (m : List Char) : List Char :=
  ((m.dropWhile (fun c => c != '.')).drop 1).takeWhile (fun c => c != '.')

/-- Python `int` on a string of decimal digits. -/
def digitsVal (ds : List Char) : Nat :=
  ds.foldl (fun n c => 10 * n + (c.toNat - 48)) 0

/-- The filter of text_cleaner.py lines 30-32: keep a match iff the integer
value of its fractional digits is nonzero. -/
def yKeep (m : List Char) : Bool :=
  digitsVal (fracDigits m) != 0

/-- Python `float()` restricted to the unsigned decimal shapes the X-field
regex can produce (`digits` or `digits.digits`, with a trailing lone dot also
accepted as `float` does); returns the integer digits and the fractional
digits, or `none` for any other string — the `except ValueError` path of
text_cleaner.py lines 43-44. -/
def parseDec (t : List Char) : Option (List Char × List Char) :=
  let d1 := t.takeWhile Char.isDigit
  if d1.isEmpty then none
  else
    match t.dropWhile Char.isDigit with
    | [] => some (d1, [])
    | ['.'] => some (d1, [])
    | '.' :: r =>
      let d2 := r.takeWhile Char.isDigit
      if d2.isEmpty || !(r.dropWhile Char.isDigit).isEmpty then none
      else some (d1, d2)
    | _ => none

/-- Round `a / b` to the nearest integer, ties to even (the rounding of
Python's `"%.3f"` formatting, applied here to the exact decimal value). -/
def rhalfEven (a b : Nat) : Nat :=
  let q := a / b
  let r := a % b
  if 2 * r < b then q else if b < 2 * r then q + 1 else if q % 2 = 0 then q else q + 1

/-- Decimal digits of a natural number (e.g. `0 ↦ "0"`). -/
def natDigits (n : Nat) : List Char :=
  Nat.toDigits 10 n

/-- Three-digit zero-padded rendering of `n < 1000`. -/
def padLeft3 (n : Nat) : List Char :=
  List.replicate (3 - (natDigits n).length) '0' ++ natDigits n

/-- Python `str.rstrip('0')`. -/
def rstripZero (s : List Char) : List Char :=
  (s.reverse.dropWhile (fun c => c == '0')).reverse

/-- Python `str.rstrip('.')`. -/
def rstripDot (s : List Char) : List Char :=
  (s.reverse.dropWhile (fun c => c == '.')).reverse

/-- text_cleaner.py lines 40-41 on a parsed token with integer digits `d1`
and fractional digits `d2`: `float(val) * 1000` rendered by `f"{value:.3f}"`
and then `.rstrip('0').rstrip('.')`.  The exact value is
`digitsVal (d1 ++ d2) / 10 ^ d2.length`; multiplying by `1000` and rounding
to three decimals yields `m / 1000` with `m` as below. -/
def fmtX (d1 d2 : List Char) : List Char :=
  let m := rhalfEven (digitsVal (d1 ++ d2) * 10 ^ 6) (10 ^ d2.length)
  rstripDot (rstripZero (natDigits (m / 1000) ++ '.' :: padLeft3 (m % 1000)))

/-- The X-side loop of text_cleaner.py lines 37-44: parse each matched token,
skipping tokens whose conversion fails, and format the rest. -/
def processX (ts : List (List Char)) : List (List Char) :=
  ts.filterMap (fun t => (parseDec t).map (fun p => fmtX p.1 p.2))

/-- Embedding of `clean_text` (text_cleaner.py lines 5-50).  The Y side:
strip and split the text into lines, drop the first two lines when more than
two are present, rejoin with newlines, replace a line-leading `\s*=\s*` by
`-`, collect all `-?\d+\.\d+` matches and keep those with nonzero fractional
digits.  The X side: collect the line-leading `\d+(?:\.\d+)?` matches,
convert and format each (skipping failures).  Returns `(processed_x,
processed_y)`. -/
def clean_text (text_x text_y : List Char) : List (List Char) × List (List Char) :=
  let lines_y := splitlines (pyStrip text_y)
  let data_lines_y := if 2 < lines_y.length then lines_y.drop 2 else lines_y
  let cleaned_text_y := List.intercalate ['\n'] data_lines_y
  let subbed_y := subEq cleaned_text_y true
  let matches_y := findAllFloat subbed_y
  let processed_y := matches_y.filter yKeep
  let matches_x := findAllX text_x true
  let processed_x := processX matches_x
  (processed_x, processed_y)

/-- `clean_text` on Lean strings, returning Lean strings. -/
def cleanTextS (text_x text_y : String) : List String × List String :=
  let p := clean_text text_x.data text_y.data
  (p.1.map (fun l => String.mk l), p.2.map (fun l => String.mk l))

/-- Per-photo cleaned values as stored in the result map: the `'X'` and `'Y'`
lists of a `data_dict` entry (always lists in the pipeline, so
`ensure_list` of save_to_csv.py lines 4-11 returns its argument — the very
same list object — unchanged). -/
structure Vals where
  X : List String
  Y : List String
deriving DecidableEq, Repr

/-- Split a character list at the LAST occurrence of `sep`, as Python's
`rsplit(sep, 1)`: `none` when `sep` does not occur, otherwise the parts
before and after the last occurrence. -/
def rsplitLast (sep : Char) (cs : List Char) : Option (List Char × List Char) :=
  match cs.reverse.dropWhile (fun c => c != sep) with
  | [] => none
  | _ :: pre => some (pre.reverse, (cs.reverse.takeWhile (fun c => c != sep)).reverse)

/-- save_to_csv.py lines 26-31: split the stem at its last underscore; accept
it when the part after the underscore is exactly `"V"` or `"H"` (the part
before may be empty — the code does not test it), returning the base and the
orientation character; reject everything else. -/
def stemBaseOri (stem : String) : Option (String × Char) :=
  match rsplitLast '_' stem.data with
  | some (pre, suf) =>
    if suf = ['V'] then some (String.mk pre, 'V')
    else if suf = ['H'] then some (String.mk pre, 'H')
    else none
  | none => none

/-- One `paired_data` entry: the optional `'V'` and `'H'` sides of a base
name (save_to_csv.py line 32). -/
structure Sides where
  V : Option Vals
  H : Option Vals
deriving DecidableEq, Repr

/-- Store `v` in the slot named by `ori` (`'V'` or `'H'`). -/
def setSlot (g : Sides) (ori : Char) (v : Vals) : Sides :=
  if ori = 'V' then { g with V := some v } else { g with H := some v }

/-- `paired_data.setdefault(base, {})[orientation] = …` on an insertion-order
association list: update the existing entry for `base` in place, or append a
new entry at the end. -/
def insertGrouped (acc : List (String × Sides)) (base : String) (ori : Char)
    (v : Vals) : List (String × Sides) :=
  match acc with
  | [] => [(base, setSlot ⟨none, none⟩ ori v)]
  | (b, g) :: rest =>
    if b = base then (b, setSlot g ori v) :: rest
    else (b, g) :: insertGrouped rest base ori v

/-- The `paired_data` mapping built by save_to_csv.py lines 23-35 from the
insertion-ordered `data_dict`: stems without a recognized `_V`/`_H` suffix
are skipped. -/
def pairedOf (data : List (String × Vals)) : List (String × Sides) :=
  data.foldl (fun acc p =>
    match stemBaseOri p.1 with
    | some bo => insertGrouped acc bo.1 bo.2 p.2
    | none => acc) []

/-- `lst += [""] * (n - len(lst))` (save_to_csv.py lines 56-59); Python's
negative repeat count yields the empty list, matching truncated `Nat`
subtraction. -/
def padTo (n : Nat) (l : List String) : List String :=
  l ++ List.replicate (n - l.length) ""

/-- The default `{'X': [], 'Y': []}` used for an absent side
(save_to_csv.py lines 50-51). -/
def emptyVals : Vals := ⟨[], []⟩

/-- The padding step of save_to_csv.py lines 53-59 for one group: both sides'
`X` lists are padded to the larger `X` length, and likewise for `Y`,
independently.  Returns the padded `(v_data, h_data)`. -/
def padGroup (g : Sides) : Vals × Vals :=
  let v := g.V.getD emptyVals
  let h := g.H.getD emptyVals
  let mx := max v.X.length h.X.length
  let my := max v.Y.length h.Y.length
  (⟨padTo mx v.X, padTo my v.Y⟩, ⟨padTo mx h.X, padTo my h.Y⟩)

/-- The three data rows plus spacer row written for one group by
save_to_csv.py lines 61-78: header row `[base_V, "" * 7, base_H]`, the
`Ref X:` row, the `Ref Y:` row, and an empty spacer row. -/
def detailBlock (base : String) (g : Sides) : List (List String) :=
  let vh := padGroup g
  [ [base ++ "_V"] ++ List.replicate 7 "" ++ [base ++ "_H"],
    ["Ref X:"] ++ vh.1.X ++ List.replicate (7 - vh.1.X.length) ""
      ++ ["Ref X:"] ++ vh.2.X,
    ["Ref Y:"] ++ vh.1.Y ++ List.replicate (7 - vh.1.Y.length) ""
      ++ ["Ref Y:"] ++ vh.2.Y,
    [] ]

/-- One summary row of save_to_csv.py lines 42-45: the base name and, for
each present side, the reconstructed stem, else an empty cell. -/
def summaryRow (base : String) (g : Sides) : List String :=
  [base,
   if g.V.isSome then base ++ "_V" else "",
   if g.H.isSome then base ++ "_H" else ""]

/-- All CSV rows written by `save_side_by_side_csv`
(save_to_csv.py lines 37-78), in order: the summary header row, one summary
row per base, a blank row, then each base's detail block. -/
def saveRows (data : List (String × Vals)) : List (List String) :=
  let paired := pairedOf data
  [["Base", "V Image", "H Image"]]
    ++ paired.map (fun p => summaryRow p.1 p.2)
    ++ [[]]
    ++ List.flatten (paired.map (fun p => detailBlock p.1 p.2))

/-- Look up a base in `paired_data` (present whenever the base was inserted). -/
def lookupGroup (paired : List (String × Sides)) (base : String) : Sides :=
  match paired.find? (fun p => p.1 == base) with
  | some p => p.2
  | none => ⟨none, none⟩

/-- The value of one `data_dict` entry after `save_side_by_side_csv`
returns.  `ensure_list` (save_to_csv.py lines 4-11) returns the caller's
list object itself, so the `paired_data` sides alias the caller's lists, and
the in-place `+=` of lines 56-59 extends those same objects: an entry whose
stem was grouped is padded to its group's maxima; other entries are
untouched. -/
def finalVals (paired : List (String × Sides)) (stem : String) (v : Vals) : Vals :=
  match stemBaseOri stem with
  | none => v
  | some (base, ori) =>
    let g := lookupGroup paired base
    let sib := (if ori = 'V' then g.H else g.V).getD emptyVals
    ⟨padTo (max v.X.length sib.X.length) v.X,
     padTo (max v.Y.length sib.Y.length) v.Y⟩

/-- The caller's `data_dict` (each entry's `'X'`/`'Y'` lists) after
`save_side_by_side_csv` returns, modelling the in-place list mutation
described at `finalVals`. -/
def finalData (data : List (String × Vals)) : List (String × Vals) :=
  data.map (fun p => (p.1, finalVals (pairedOf data) p.1 p.2))

/-- Length and append characterization of `padTo`. -/
theorem padTo_spec (n : Nat) (l : List String) :
    (padTo n l).length = max n l.length ∧
    padTo n l = l ++ List.replicate ((padTo n l).length - l.length) "" := by
  constructor
  · simp [padTo]
    omega
  · simp only [padTo, List.length_append, List.length_replicate]
    congr 2
    omega

/-- C5: for every group, after padding the V-side and H-side X sequences
have equal length and the V-side and H-side Y sequences have equal length
(independently); each padded sequence is the original sequence followed by
empty-string placeholders only — nothing is removed, truncated, reordered or
deduplicated. -/
theorem C5_padding_invariant (g : Sides) :
    (padGroup g).1.X.length = (padGroup g).2.X.length ∧
    (padGroup g).1.Y.length = (padGroup g).2.Y.length ∧
    (padGroup g).1.X = (g.V.getD emptyVals).X
      ++ List.replicate ((padGroup g).1.X.length - (g.V.getD emptyVals).X.length) "" ∧
    (padGroup g).2.X = (g.H.getD emptyVals).X
      ++ List.replicate ((padGroup g).2.X.length - (g.H.getD emptyVals).X.length) "" ∧
    (padGroup g).1.Y = (g.V.getD emptyVals).Y
      ++ List.replicate ((padGroup g).1.Y.length - (g.V.getD emptyVals).Y.length) "" ∧
    (padGroup g).2.Y = (g.H.getD emptyVals).Y
      ++ List.replicate ((padGroup g).2.Y.length - (g.H.getD emptyVals).Y.length) "" := by
  refine ⟨?_, ?_, ?_, ?_, ?_, ?_⟩
  · simp [padGroup, padTo]
  · simp [padGroup, padTo]
  · simp only [padGroup]
    exact (padTo_spec _ _).2
  · simp only [padGroup]
    exact (padTo_spec _ _).2
  · simp only [padGroup]
    exact (padTo_spec _ _).2
  · simp only [padGroup]
    exact (padTo_spec _ _).2

/-- C9: the exported rows always begin with the summary section — header row
`["Base", "V Image", "H Image"]`, one row per base holding the base and the
reconstructed `"<base>_V"` / `"<base>_H"` stems (empty cell for an absent
side), then one blank row — and only then the per-group detail blocks. -/
theorem C9_summary_section (data : List (String × Vals)) :
    saveRows data
      = [["Base", "V Image", "H Image"]]
        ++ (pairedOf data).map (fun p =>
            [p.1, if p.2.V.isSome then p.1 ++ "_V" else "",
                  if p.2.H.isSome then p.1 ++ "_H" else ""])
        ++ [[]]
        ++ List.flatten ((pairedOf data).map (fun p => detailBlock p.1 p.2)) := by
  simp [saveRows, summaryRow]

/-- C1 as stated is false: with the space-separated stems `"Part A V"` and
`"Part A H"` the aggregation of save_to_csv.py produces NO group at all (the
code recognizes only an underscore separator), so the output holds only the
summary header and the blank row. -/
theorem C1_counterexample :
    pairedOf [("Part A V", ⟨["1"], ["1.5"]⟩), ("Part A H", ⟨["2"], ["2.5"]⟩)] = [] ∧
    saveRows [("Part A V", ⟨["1"], ["1.5"]⟩), ("Part A H", ⟨["2"], ["2.5"]⟩)]
      = [["Base", "V Image", "H Image"], []] := by decide

/-- C1 (amended): with the underscore separator the code actually uses,
stems `"Part A_V"` and `"Part A_H"` aggregate into the single base
`"Part A"` with both sides populated; a lone `"Part B_V"` aggregates into
base `"Part B"` whose H side is the empty pair, all-blank padded to match
the V side's lengths (the V side itself is unchanged by padding). -/
theorem C1_grouping (vv hv bv : Vals) :
    pairedOf [("Part A_V", vv), ("Part A_H", hv)]
      = [("Part A", ⟨some vv, some hv⟩)] ∧
    pairedOf [("Part B_V", bv)] = [("Part B", ⟨some bv, none⟩)] ∧
    (padGroup ⟨some bv, none⟩).1 = bv ∧
    (padGroup ⟨some bv, none⟩).2.X = List.replicate bv.X.length "" ∧
    (padGroup ⟨some bv, none⟩).2.Y = List.replicate bv.Y.length "" := by
  obtain ⟨bX, bY⟩ := bv
  have hAV : stemBaseOri "Part A_V" = some ("Part A", 'V') := by decide
  have hAH : stemBaseOri "Part A_H" = some ("Part A", 'H') := by decide
  have hBV : stemBaseOri "Part B_V" = some ("Part B", 'V') := by decide
  refine ⟨?_, ?_, ?_, ?_, ?_⟩
  · simp [pairedOf, hAV, hAH, insertGrouped, setSlot]
  · simp [pairedOf, hBV, insertGrouped, setSlot]
  · simp [padGroup, padTo, emptyVals]
  · simp [padGroup, padTo, emptyVals]
  · simp [padGroup, padTo, emptyVals]

/-- C6: at the result map `{"A_V": {X: ["1"], Y: []}, "A_H": {X: [], Y: []}}`
the caller's `"A_H"` entry is no longer `{X: [], Y: []}` after
`save_side_by_side_csv` returns — an empty-string placeholder has been
appended in place through the alias created by `ensure_list`; the claim (and
the spec's intent) says the caller's map is unchanged. -/
theorem C6_mutation :
    finalData [("A_V", ⟨["1"], []⟩), ("A_H", ⟨[], []⟩)]
      = [("A_V", ⟨["1"], []⟩), ("A_H", ⟨[""], []⟩)] ∧
    finalData [("A_V", ⟨["1"], []⟩), ("A_H", ⟨[], []⟩)]
      ≠ [("A_V", ⟨["1"], []⟩), ("A_H", ⟨[], []⟩)] := by decide

/-- C7 as stated is false: the header row of a group's block is
`["<base>_V", "", "", "", "", "", "", "", "<base>_H"]` — underscore labels
and SEVEN blank cells — not `["<base> V>", <6 blanks>, "<base> H>"]`. -/
theorem C7_counterexample :
    (detailBlock "Part" ⟨some ⟨["1"], ["2.5"]⟩, none⟩).head?
      = some ["Part_V", "", "", "", "", "", "", "", "Part_H"] ∧
    (detailBlock "Part" ⟨some ⟨["1"], ["2.5"]⟩, none⟩).head?
      ≠ some ["Part V>", "", "", "", "", "", "", "Part H>"] := by decide

/-- C10 as stated is false: the stem `"_V"` does NOT split into a non-empty
base plus `"V"`, yet the code accepts it (it never tests the base for
emptiness), producing a group with base `""` and the summary row
`["", "_V", ""]`. -/
theorem C10_counterexample :
    rsplitLast '_' "_V".data = some ([], ['V']) ∧
    pairedOf [("_V", ⟨["1"], []⟩)] = [("", ⟨some ⟨["1"], []⟩, none⟩)] ∧
    (saveRows [("_V", ⟨["1"], []⟩)]).get? 1 = some ["", "_V", ""] := by decide

/-- C10 (amended): every stem that does not split at its last underscore
into a (possibly empty) base plus a final token that is exactly `"V"` or
`"H"` (case-sensitive; underscore is the only recognized separator) is
silently excluded: it contributes no group and no row to the output. -/
theorem C10_unrecognized_excluded (stem : String) (v : Vals)
    (h : stemBaseOri stem = none) (pre post : List (String × Vals)) :
    pairedOf (pre ++ (stem, v) :: post) = pairedOf (pre ++ post) ∧
    saveRows (pre ++ (stem, v) :: post) = saveRows (pre ++ post) := by
  have hp : pairedOf (pre ++ (stem, v) :: post) = pairedOf (pre ++ post) := by
    simp only [pairedOf, List.foldl_append, List.foldl_cons, h]
  exact ⟨hp, by simp only [saveRows, hp]⟩

theorem C10_unrecognized_excluded_witness :
    stemBaseOri "Part A V" = none ∧
    saveRows [("B_V", ⟨["9"], []⟩), ("Part A V", ⟨["1"], ["1.5"]⟩)]
      = saveRows [("B_V", ⟨["9"], []⟩)] :=
  ⟨by decide, (C10_unrecognized_excluded "Part A V" ⟨["1"], ["1.5"]⟩ (by decide)
      [("B_V", ⟨["9"], []⟩)] []).2⟩

/-- C7 (amended): the header row of every group's block is
`["<base>_V"] ++ <7 blank cells> ++ ["<base>_H"]` — the V-side label in the
first cell and the H-side label in cell index 8, immediately after a fixed
block of 7 blank cells sized to hold up to 7 values; whenever the padded
V side holds at most 7 values, cell index 8 of the `Ref X:` and `Ref Y:`
data rows is the H-side label cell, so the header's H label aligns with
them. -/
theorem C7_header_row (base : String) (g : Sides) :
    (detailBlock base g).head?
      = some ([base ++ "_V"] ++ List.replicate 7 "" ++ [base ++ "_H"]) ∧
    ([base ++ "_V"] ++ List.replicate 7 "" ++ [base ++ "_H"]).get? 8
      = some (base ++ "_H") ∧
    ((padGroup g).1.X.length ≤ 7 →
      ((detailBlock base g).get? 1).bind (fun r => r.get? 8) = some "Ref X:") ∧
    ((padGroup g).1.Y.length ≤ 7 →
      ((detailBlock base g).get? 2).bind (fun r => r.get? 8) = some "Ref Y:") := by
  refine ⟨by simp [detailBlock], by rfl, ?_, ?_⟩
  · intro h
    simp only [detailBlock, List.get?_cons_succ, List.get?_cons_zero,
      Option.some_bind]
    have hr : ["Ref X:"] ++ (padGroup g).1.X
        ++ List.replicate (7 - (padGroup g).1.X.length) ""
        ++ ["Ref X:"] ++ (padGroup g).2.X
      = (["Ref X:"] ++ (padGroup g).1.X
          ++ List.replicate (7 - (padGroup g).1.X.length) "")
        ++ ("Ref X:" :: (padGroup g).2.X) := by
      simp [List.append_assoc]
    rw [hr, List.get?_append_right (by simp; omega)]
    have hl : (["Ref X:"] ++ (padGroup g).1.X
        ++ List.replicate (7 - (padGroup g).1.X.length) "").length = 8 := by
      simp
      omega
    rw [hl]
    rfl
  · intro h
    simp only [detailBlock, List.get?_cons_succ, List.get?_cons_zero,
      Option.some_bind]
    have hr : ["Ref Y:"] ++ (padGroup g).1.Y
        ++ List.replicate (7 - (padGroup g).1.Y.length) ""
        ++ ["Ref Y:"] ++ (padGroup g).2.Y
      = (["Ref Y:"] ++ (padGroup g).1.Y
          ++ List.replicate (7 - (padGroup g).1.Y.length) "")
        ++ ("Ref Y:" :: (padGroup g).2.Y) := by
      simp [List.append_assoc]
    rw [hr, List.get?_append_right (by simp; omega)]
    have hl : (["Ref Y:"] ++ (padGroup g).1.Y
        ++ List.replicate (7 - (padGroup g).1.Y.length) "").length = 8 := by
      simp
      omega
    rw [hl]
    rfl

theorem C7_header_row_witness :
    (detailBlock "Widget" ⟨some ⟨["100"], ["1.500"]⟩, some ⟨["100", "200"], []⟩⟩).head?
      = some ["Widget_V", "", "", "", "", "", "", "", "Widget_H"] ∧
    ((detailBlock "Widget" ⟨some ⟨["100"], ["1.500"]⟩, some ⟨["100", "200"], []⟩⟩).get? 1).bind
        (fun r => r.get? 8) = some "Ref X:" ∧
    ((detailBlock "Widget" ⟨some ⟨["100"], ["1.500"]⟩, some ⟨["100", "200"], []⟩⟩).get? 2).bind
        (fun r => r.get? 8) = some "Ref Y:" :=
  ⟨(C7_header_row "Widget" ⟨some ⟨["100"], ["1.500"]⟩, some ⟨["100", "200"], []⟩⟩).1,
   (C7_header_row "Widget" ⟨some ⟨["100"], ["1.500"]⟩, some ⟨["100", "200"], []⟩⟩).2.2.1 (by decide),
   (C7_header_row "Widget" ⟨some ⟨["100"], ["1.500"]⟩, some ⟨["100", "200"], []⟩⟩).2.2.2 (by decide)⟩

/-- C2 as stated is false: for the two-line `y_text` `"1.5\n2.5"` the code
KEEPS both lines (the drop is guarded by `len(lines) > 2`), so the Y result
is `["1.5", "2.5"]`, not the empty sequence. -/
theorem C2_counterexample :
    (cleanTextS "" "1.5\n2.5").2 = ["1.5", "2.5"] ∧
    (cleanTextS "" "1.5\n2.5").2 ≠ [] := by decide

/-- Joining two lines with a newline. -/
theorem intercalate_pair (l1 l2 : List Char) :
    List.intercalate ['\n'] [l1, l2] = l1 ++ '\n' :: l2 := by
  simp [List.intercalate]

/-- C2 (amended): the Y-field normalization drops the first two lines only
when the stripped text has MORE than two lines; a `y_text` whose stripped
content is exactly two lines is processed in full — both lines flow into the
`=`-replacement and token extraction. -/
theorem C2_y_drop_conditional (tx ty l1 l2 : List Char) :
    (splitlines (pyStrip ty) = [l1, l2] →
      (clean_text tx ty).2
        = (findAllFloat (subEq (l1 ++ '\n' :: l2) true)).filter yKeep) ∧
    (∀ l3 rest, splitlines (pyStrip ty) = l1 :: l2 :: l3 :: rest →
      (clean_text tx ty).2
        = (findAllFloat (subEq (List.intercalate ['\n'] (l3 :: rest)) true)).filter yKeep) := by
  constructor
  · intro h
    simp only [clean_text, h, List.length_cons, List.length_nil]
    norm_num
    rw [intercalate_pair]
  · intro l3 rest h
    simp only [clean_text, h, List.length_cons]
    norm_num

theorem C2_y_drop_conditional_witness :
    splitlines (pyStrip ("1.5\n2.5").data) = [("1.5").data, ("2.5").data] ∧
    (clean_text [] ("1.5\n2.5").data).2
      = (findAllFloat (subEq (("1.5").data ++ '\n' :: ("2.5").data) true)).filter yKeep :=
  ⟨by decide,
   (C2_y_drop_conditional [] ("1.5\n2.5").data ("1.5").data ("2.5").data).1 (by decide)⟩

/-- C8: `clean_text` is a total function of its two inputs — empty inputs or
inputs without any numeric match yield empty sequences, never an error — and
a token whose numeric conversion fails is discarded alone: the remaining
candidates on both sides of it are still processed. -/
theorem C8_total_and_skip :
    cleanTextS "" "" = ([], []) ∧
    cleanTextS "no numbers here" "no numbers here" = ([], []) ∧
    (∀ ts us t, parseDec t = none →
      processX (ts ++ t :: us) = processX (ts ++ us)) := by
  refine ⟨by decide, by decide, ?_⟩
  intro ts us t h
  simp [processX, List.filterMap_append, h]

theorem C8_total_and_skip_witness :
    parseDec ("abc").data = none ∧
    processX [("12.5").data, ("abc").data, ("7.25").data]
      = processX [("12.5").data, ("7.25").data] :=
  ⟨by decide,
   C8_total_and_skip.2.2 [("12.5").data] [("7.25").data] ("abc").data (by decide)⟩

/-- `takeWhile` does not see past a separator failing the predicate. -/
theorem takeWhile_append_sep (p : Char → Bool) (c : Char) (hc : p c = false)
    (l r : List Char) : (l ++ c :: r).takeWhile p = l.takeWhile p := by
  induction l with
  | nil => simp [List.takeWhile_cons, hc]
  | cons a l ih =>
    simp only [List.cons_append, List.takeWhile_cons]
    cases hpa : p a
    · simp
    · simp [ih]

/-- `dropWhile` keeps everything from a separator failing the predicate on. -/
theorem dropWhile_append_sep (p : Char → Bool) (c : Char) (hc : p c = false)
    (l r : List Char) : (l ++ c :: r).dropWhile p = l.dropWhile p ++ c :: r := by
  induction l with
  | nil => simp [List.dropWhile_cons, hc]
  | cons a l ih =>
    simp only [List.cons_append, List.dropWhile_cons]
    cases hpa : p a
    · simp
    · simp [ih]

/-- The remainder returned by `matchXAt` consists of characters of the
input. -/
theorem matchXAt_rest_subset {l m rest : List Char}
    (h : matchXAt l = some (m, rest)) : ∀ c ∈ rest, c ∈ l := by
  have hsub : ∀ c ∈ l.dropWhile Char.isDigit, c ∈ l := fun c hc =>
    (List.dropWhile_suffix (l := l) Char.isDigit).sublist.subset hc
  simp only [matchXAt] at h
  split at h
  · exact absurd h (by simp)
  · split at h
    · simp only [Option.some.injEq, Prod.mk.injEq] at h
      intro c hc
      rw [← h.2] at hc
      exact absurd hc (by simp)
    · rename_i c0 cs1 h2
      have hcs1 : ∀ c ∈ c0 :: cs1, c ∈ l := by rw [← h2]; exact hsub
      split at h
      · split at h
        · simp only [Option.some.injEq, Prod.mk.injEq] at h
          intro c hc
          rw [← h.2] at hc
          exact hcs1 c hc
        · simp only [Option.some.injEq, Prod.mk.injEq] at h
          intro c hc
          rw [← h.2] at hc
          have hc1 : c ∈ cs1 :=
            (List.dropWhile_suffix (l := cs1) Char.isDigit).sublist.subset hc
          exact hcs1 c (List.mem_cons_of_mem _ hc1)
      · simp only [Option.some.injEq, Prod.mk.injEq] at h
        intro c hc
        rw [← h.2] at hc
        exact hcs1 c hc

/-- Behaviour of `matchXAt` when the rest of the text (separated by a
newline) is appended to a newline-free line: a failing line still fails, and
a successful line yields the same token with the appended text tacked onto
the remainder. -/
theorem matchXAt_append_nl (l r : List Char) (hnl : '\n' ∉ l) :
    (matchXAt l = none → matchXAt (l ++ '\n' :: r) = none) ∧
    (∀ m rest, matchXAt l = some (m, rest) →
      matchXAt (l ++ '\n' :: r) = some (m, rest ++ '\n' :: r)) := by
  have hd : Char.isDigit '\n' = false := by decide
  have ht := takeWhile_append_sep Char.isDigit '\n' hd l r
  have hw := dropWhile_append_sep Char.isDigit '\n' hd l r
  by_cases h1 : (l.takeWhile Char.isDigit).isEmpty
  · constructor
    · intro _
      simp only [matchXAt, ht, hw, h1, if_true]
    · intro m rest h
      simp only [matchXAt, h1, if_true] at h
      exact absurd h (by simp)
  · rcases hdw : l.dropWhile Char.isDigit with _ | ⟨c, cs1⟩
    · constructor
      · intro h
        simp only [matchXAt, h1, hdw] at h
        exact absurd h (by simp)
      · intro m rest h
        simp only [matchXAt, h1, hdw] at h
        simp only [Bool.false_eq_true, if_false, Option.some.injEq,
          Prod.mk.injEq] at h
        simp only [matchXAt, ht, hw, hdw, h1, Bool.false_eq_true, if_false,
          List.nil_append]
        have hcnl : ('\n' : Char) = '.' → False := by decide
        rw [if_neg hcnl, ← h.1, ← h.2]
        simp
    · have hmem : ∀ x ∈ c :: cs1, x ∈ l := by
        rw [← hdw]
        exact fun x hx =>
          (List.dropWhile_suffix (l := l) Char.isDigit).sublist.subset hx
      have hnl1 : '\n' ∉ cs1 := fun hx =>
        hnl (hmem '\n' (List.mem_cons_of_mem _ hx))
      have ht1 := takeWhile_append_sep Char.isDigit '\n' hd cs1 r
      have hw1 := dropWhile_append_sep Char.isDigit '\n' hd cs1 r
      constructor
      · intro h
        simp only [matchXAt, h1, hdw] at h
        simp only [Bool.false_eq_true, if_false] at h
        split at h
        · split at h <;> simp at h
        · simp at h
      · intro m rest h
        simp only [matchXAt, h1, hdw, Bool.false_eq_true, if_false] at h
        simp only [matchXAt, ht, hw, hdw, h1, Bool.false_eq_true, if_false,
          List.cons_append]
        by_cases hc : c = '.'
        · rw [if_pos hc] at h ⊢
          rw [ht1]
          by_cases h3 : (cs1.takeWhile Char.isDigit).isEmpty
          · rw [if_pos h3] at h ⊢
            simp only [Option.some.injEq, Prod.mk.injEq] at h
            rw [← h.1, ← h.2]
            simp
          · rw [if_neg h3] at h ⊢
            simp only [Option.some.injEq, Prod.mk.injEq] at h
            rw [hw1, ← h.1, ← h.2]
        · rw [if_neg hc] at h ⊢
          simp only [Option.some.injEq, Prod.mk.injEq] at h
          rw [← h.1, ← h.2]
          simp

/-- Away from a line start, a newline-free text yields no X matches. -/
theorem findAllX_false_no_nl (l : List Char) (hnl : '\n' ∉ l) :
    findAllX l false = [] := by
  induction l with
  | nil => rfl
  | cons c cs ih =>
    rw [findAllX_cons_false]
    have hc : (c == '\n') = false := by
      simp only [beq_eq_false_iff_ne, ne_eq]
      exact fun hh => hnl (by simp [hh])
    rw [hc]
    exact ih fun hx => hnl (List.mem_cons_of_mem _ hx)

/-- Away from a line start, the scan skips the rest of the current line and
resumes at line-start state after the newline. -/
theorem findAllX_skip_line (l r : List Char) (hnl : '\n' ∉ l) :
    findAllX (l ++ '\n' :: r) false = findAllX r true := by
  induction l with
  | nil =>
    simp only [List.nil_append]
    rw [findAllX_cons_false]
    simp
  | cons c cs ih =>
    rw [List.cons_append, findAllX_cons_false]
    have hc : (c == '\n') = false := by
      simp only [beq_eq_false_iff_ne, ne_eq]
      exact fun hh => hnl (by simp [hh])
    rw [hc]
    exact ih fun hx => hnl (List.mem_cons_of_mem _ hx)

/-- `intercalate` unfolds on a cons with a nonempty tail. -/
theorem intercalate_cons_ne (sep l : List Char) (ls : List (List Char))
    (h : ls ≠ []) :
    List.intercalate sep (l :: ls) = l ++ sep ++ List.intercalate sep ls := by
  cases ls with
  | nil => exact absurd rfl h
  | cons l2 ls2 => simp [List.intercalate, List.intersperse]

/-- A single newline-free line yields exactly its leading X match. -/
theorem findAllX_single (l : List Char) (hnl : '\n' ∉ l) :
    findAllX l true = ((matchXAt l).map Prod.fst).toList := by
  rcases hm : matchXAt l with _ | ⟨m, rest⟩
  · cases l with
    | nil => rfl
    | cons c cs =>
      rw [findAllX_cons_true, hm]
      have hc : (c == '\n') = false := by
        simp only [beq_eq_false_iff_ne, ne_eq]
        exact fun hh => hnl (by simp [hh])
      rw [hc]
      simp only [Option.map_none, Option.toList_none]
      exact findAllX_false_no_nl cs fun hx => hnl (List.mem_cons_of_mem _ hx)
  · cases l with
    | nil => simp [matchXAt] at hm
    | cons c cs =>
      rw [findAllX_cons_true, hm]
      show m :: findAllX rest false = _
      have hrest : '\n' ∉ rest := fun hx =>
        hnl (matchXAt_rest_subset hm '\n' hx)
      rw [findAllX_false_no_nl rest hrest]
      simp

/-- One line followed by a newline and the remaining text: a failing line
contributes nothing; a matching line contributes its token; the scan resumes
in line-start state on the remaining text. -/
theorem findAllX_line_step (l r : List Char) (hnl : '\n' ∉ l) :
    findAllX (l ++ '\n' :: r) true
      = ((matchXAt l).map Prod.fst).toList ++ findAllX r true := by
  rcases hm : matchXAt l with _ | ⟨m, rest⟩
  · have h2 := (matchXAt_append_nl l r hnl).1 hm
    cases l with
    | nil =>
      simp only [List.nil_append]
      rw [findAllX_cons_true]
      rw [show matchXAt ('\n' :: r) = none from h2]
      simp
    | cons c cs =>
      rw [List.cons_append, findAllX_cons_true]
      rw [show matchXAt (c :: (cs ++ '\n' :: r)) = none from h2]
      have hc : (c == '\n') = false := by
        simp only [beq_eq_false_iff_ne, ne_eq]
        exact fun hh => hnl (by simp [hh])
      rw [hc, findAllX_skip_line cs r fun hx => hnl (List.mem_cons_of_mem _ hx)]
      simp
  · have h2 := (matchXAt_append_nl l r hnl).2 m rest hm
    have hrest : '\n' ∉ rest := fun hx =>
      hnl (matchXAt_rest_subset hm '\n' hx)
    cases l with
    | nil => simp [matchXAt] at hm
    | cons c cs =>
      rw [List.cons_append, findAllX_cons_true]
      rw [show matchXAt (c :: (cs ++ '\n' :: r)) = some (m, rest ++ '\n' :: r) from h2]
      show m :: findAllX (rest ++ '\n' :: r) false = _
      rw [findAllX_skip_line rest r hrest]
      simp

/-- The `re.MULTILINE` X scan is line-local: over newline-joined,
newline-free lines it returns exactly each line's leading match, in order. -/
theorem findAllX_lines (ls : List (List Char)) (h : ∀ l ∈ ls, '\n' ∉ l) :
    findAllX (List.intercalate ['\n'] ls) true
      = ls.flatMap (fun l => ((matchXAt l).map Prod.fst).toList) := by
  induction ls with
  | nil =>
    show findAllX (List.intercalate ['\n'] []) true = []
    rfl
  | cons l ls ih =>
    cases ls with
    | nil =>
      rw [show List.intercalate ['\n'] [l] = l from by simp [List.intercalate]]
      rw [findAllX_single l (h l (by simp))]
      simp
    | cons l2 ls2 =>
      rw [intercalate_cons_ne _ _ _ (by simp), List.append_assoc,
        List.singleton_append, findAllX_line_step l _ (h l (by simp)),
        ih fun x hx => h x (by simp [hx])]
      simp

/-- C3: the X-field normalization is line-local: over any newline-joined
list of newline-free lines, the X result is, per line in order, the
formatted conversion (parse as a decimal, multiply by 1000, render with
three decimal digits, strip trailing zeros and a trailing dot) of the
line's leading unsigned number; lines without one, and tokens whose
conversion fails, are skipped without aborting the scan.  Concretely,
`"12.5\n"` yields X = `["12500"]` and `"3.0\nabc\n7.25"` yields
X = `["3000", "7250"]`. -/
theorem C3_x_normalization :
    (∀ (ls : List (List Char)) (ty : List Char), (∀ l ∈ ls, '\n' ∉ l) →
      (clean_text (List.intercalate ['\n'] ls) ty).1
        = processX (ls.flatMap (fun l => ((matchXAt l).map Prod.fst).toList))) ∧
    cleanTextS "12.5\n" "" = (["12500"], []) ∧
    cleanTextS "3.0\nabc\n7.25" "" = (["3000", "7250"], []) := by
  refine ⟨?_, by decide, by decide⟩
  intro ls ty h
  simp only [clean_text]
  rw [findAllX_lines ls h]

theorem C3_x_normalization_witness :
    (∀ l ∈ [("3.0").data, ("abc").data, ("7.25").data], '\n' ∉ l) ∧
    (clean_text (List.intercalate ['\n']
        [("3.0").data, ("abc").data, ("7.25").data]) []).1
      = processX ([("3.0").data, ("abc").data, ("7.25").data].flatMap
          (fun l => ((matchXAt l).map Prod.fst).toList)) :=
  ⟨by decide,
   C3_x_normalization.1 [("3.0").data, ("abc").data, ("7.25").data] [] (by decide)⟩

/-- `splitlinesAux` on a newline head: emit the current line and restart
(with no trailing empty line at the end of input). -/
theorem splitlinesAux_cons_nl (X acc : List Char) :
    splitlinesAux ('\n' :: X) acc
      = acc.reverse :: (if X.isEmpty then [] else splitlinesAux X []) := by
  rfl

/-- `splitlinesAux` accumulates a non-line-boundary character. -/
theorem splitlinesAux_cons_notlb (a : Char) (X acc : List Char)
    (ha : isLb a = false) :
    splitlinesAux (a :: X) acc = splitlinesAux X (a :: acc) := by
  rw [splitlinesAux.eq_def]
  split
  · rename_i heq
    exact absurd heq (by simp)
  · rename_i cs heq
    rw [List.cons.injEq] at heq
    rw [heq.1] at ha
    exact absurd ha (by decide)
  · rename_i hov heq
    rw [List.cons.injEq] at heq
    rw [← heq.1, ← heq.2, ha]
    simp

/-- `splitlinesAux` splits off a leading line at its newline. -/
theorem splitlinesAux_append (l : List Char) :
    ∀ (r acc : List Char), (∀ c ∈ l, isLb c = false) → r ≠ [] →
    splitlinesAux (l ++ '\n' :: r) acc
      = (acc.reverse ++ l) :: splitlinesAux r [] := by
  induction l with
  | nil =>
    intro r acc _ hr
    rw [List.nil_append, splitlinesAux_cons_nl]
    rw [if_neg (by simpa [List.isEmpty_iff] using hr)]
    simp
  | cons a l ih =>
    intro r acc hl hr
    rw [List.cons_append, splitlinesAux_cons_notlb a _ acc (hl a (by simp))]
    rw [ih r (a :: acc) (fun c hc => hl c (by simp [hc])) hr]
    simp

/-- `splitlines` splits off a leading line (free of line boundaries) at its
newline. -/
theorem splitlines_append (l r : List Char) (hl : ∀ c ∈ l, isLb c = false)
    (hr : r ≠ []) :
    splitlines (l ++ '\n' :: r) = l :: splitlines r := by
  rw [splitlines, splitlines, if_neg (by simp), if_neg (by simpa [List.isEmpty_iff] using hr)]
  rw [splitlinesAux_append l r [] hl hr]
  simp

/-- `dropWhile` distributes over an append whose left part contains a
failing element. -/
theorem dropWhile_append_of_exists (p : Char → Bool) (l r : List Char)
    (h : ∃ c ∈ l, p c = false) :
    (l ++ r).dropWhile p = l.dropWhile p ++ r := by
  induction l with
  | nil => simp at h
  | cons a l ih =>
    simp only [List.cons_append, List.dropWhile_cons]
    cases hpa : p a
    · simp
    · obtain ⟨c, hc, hcp⟩ := h
      rcases List.mem_cons.mp hc with hceq | hc2
      · rw [hceq, hpa] at hcp
        exact absurd hcp (by simp)
      · simpa using ih ⟨c, hc2, hcp⟩

/-- Right-stripping ignores a trailing whitespace character. -/
theorem rstrip_concat_ws (xs : List Char) (c : Char) (hc : pyWs c = true) :
    ((xs ++ [c]).reverse.dropWhile pyWs).reverse
      = (xs.reverse.dropWhile pyWs).reverse := by
  simp [List.reverse_append, List.dropWhile_cons, hc]

/-- Right-stripping keeps everything up to a trailing non-whitespace
character. -/
theorem rstrip_concat_nonws (xs : List Char) (c : Char) (hc : pyWs c = false) :
    ((xs ++ [c]).reverse.dropWhile pyWs).reverse = xs ++ [c] := by
  simp [List.reverse_append, List.dropWhile_cons, hc]

/-- `pyStrip` of text whose left part has a non-whitespace character and
which ends in a non-whitespace character followed by a final newline:
the left part is left-stripped, the final newline goes, nothing else. -/
theorem pyStrip_append_end (l r : List Char)
    (hx : ∃ x ∈ l, pyWs x = false)
    (hr : ∃ r0 c, r = r0 ++ [c] ∧ pyWs c = false) :
    pyStrip (l ++ (r ++ ['\n'])) = l.dropWhile pyWs ++ r := by
  obtain ⟨r0, c0, hre, hc0⟩ := hr
  unfold pyStrip
  rw [dropWhile_append_of_exists pyWs l _ hx]
  rw [show l.dropWhile pyWs ++ (r ++ ['\n']) = (l.dropWhile pyWs ++ r) ++ ['\n'] from by
    simp]
  rw [rstrip_concat_ws _ '\n' (by decide)]
  rw [hre]
  rw [show l.dropWhile pyWs ++ (r0 ++ [c0]) = (l.dropWhile pyWs ++ r0) ++ [c0] from by
    simp]
  exact rstrip_concat_nonws _ c0 hc0

/-- C4: for every `y_text` made of two header lines (each free of line
boundaries, the first containing a non-whitespace character) followed by
`"=1.230\n4.000\n-2.500\n"`, the Y result of `clean_text` is
`["-1.230", "-2.500"]`: the two header lines are dropped, the leading `=`
becomes `-`, the three signed decimals are extracted in order, and
`"4.000"` is discarded for its all-zero fraction. -/
theorem C4_y_example (tx h1 h2 : List Char)
    (hb1 : ∀ c ∈ h1, isLb c = false) (hb2 : ∀ c ∈ h2, isLb c = false)
    (hx : ∃ c ∈ h1, pyWs c = false) :
    (clean_text tx (h1 ++ '\n' :: (h2 ++ '\n' :: ("=1.230\n4.000\n-2.500\n").data))).2
      = [("-1.230").data, ("-2.500").data] := by
  have hT : ("=1.230\n4.000\n-2.500\n").data
      = ("=1.230\n4.000\n-2.500").data ++ ['\n'] := by decide
  have hTc : ("=1.230\n4.000\n-2.500").data
      = ("=1.230\n4.000\n-2.50").data ++ ['0'] := by decide
  have hstrip : pyStrip (h1 ++ '\n' :: (h2 ++ '\n' :: ("=1.230\n4.000\n-2.500\n").data))
      = h1.dropWhile pyWs ++ ('\n' :: (h2 ++ '\n' :: ("=1.230\n4.000\n-2.500").data)) := by
    have he : h1 ++ '\n' :: (h2 ++ '\n' :: ("=1.230\n4.000\n-2.500\n").data)
        = h1 ++ (('\n' :: (h2 ++ '\n' :: ("=1.230\n4.000\n-2.500").data)) ++ ['\n']) := by
      rw [hT]
      simp
    rw [he]
    exact pyStrip_append_end h1 _ hx
      ⟨'\n' :: (h2 ++ '\n' :: ("=1.230\n4.000\n-2.50").data), '0',
       by rw [hTc]; simp, by decide⟩
  have hnb1' : ∀ c ∈ h1.dropWhile pyWs, isLb c = false := fun c hc =>
    hb1 c ((List.dropWhile_suffix (l := h1) pyWs).sublist.subset hc)
  have hlines : splitlines (pyStrip (h1 ++ '\n' :: (h2 ++ '\n' :: ("=1.230\n4.000\n-2.500\n").data)))
      = h1.dropWhile pyWs :: h2 :: [("=1.230").data, ("4.000").data, ("-2.500").data] := by
    rw [hstrip]
    rw [show h1.dropWhile pyWs ++ ('\n' :: (h2 ++ '\n' :: ("=1.230\n4.000\n-2.500").data))
        = h1.dropWhile pyWs ++ '\n' :: (h2 ++ '\n' :: ("=1.230\n4.000\n-2.500").data) from rfl]
    rw [splitlines_append _ _ hnb1' (by simp)]
    rw [splitlines_append _ _ hb2 (by decide)]
    rw [show splitlines ("=1.230\n4.000\n-2.500").data
        = [("=1.230").data, ("4.000").data, ("-2.500").data] from by decide]
  simp only [clean_text, hlines, List.length_cons, List.length_nil]
  norm_num
  decide

theorem C4_y_example_witness :
    (∀ c ∈ ("HDR A").data, isLb c = false) ∧
    (∃ c ∈ ("HDR A").data, pyWs c = false) ∧
    (clean_text [] (("HDR A").data ++ '\n' :: (("HDR B").data ++ '\n'
        :: ("=1.230\n4.000\n-2.500\n").data))).2
      = [("-1.230").data, ("-2.500").data] :=
  ⟨by decide, by decide,
   C4_y_example [] ("HDR A").data ("HDR B").data (by decide) (by decide) (by decide)⟩
